import Mathlib

/-!
Verification of the mail-scanning / Bitrix24 / password-handling automation
repository.  Python functions from `src/` are shallowly embedded as Lean
definitions: byte strings become `List Nat` (one element per byte,
values < 256), text becomes `List Char` or `String`, stateful code becomes
explicit state passing, and calls to external services (HTTP, IMAP, pandas,
the `cryptography` library) become function parameters or small models that
are documented where they appear.
-/

namespace Plugins

/-! ## Byte-level helpers -/

/-- Python truthiness of an optional string: `None` and `""` are falsy. -/
def pyTruthyStr (o : Option String) : Bool :=
  match o with
  | none => false
  | some s => s ≠ ""

/-! ## mail_scan.utilities._is_excel_file
Embeds `src/mail_scan/utilities.py` lines 140-153.  A byte string is a
`List Nat`; `b"PK\x03\x04"` is `[0x50, 0x4B, 0x03, 0x04]` and
`b"\xd0\xcf\x11\xe0"` is `[0xd0, 0xcf, 0x11, 0xe0]`. -/

def _is_excel_file (file_bytes : List Nat) : Bool × String :=
  -- `if not file_bytes or len(file_bytes) < 8: return False, "empty"`
  if file_bytes = [] ∨ file_bytes.length < 8 then (false, "empty")
  -- `if file_bytes.startswith(b"PK\x03\x04") or file_bytes.startswith(b"PK")`
  else if [0x50, 0x4B, 0x03, 0x04].isPrefixOf file_bytes
          ∨ [0x50, 0x4B].isPrefixOf file_bytes then (true, "xlsx")
  -- `if file_bytes.startswith(b"\xd0\xcf\x11\xe0")`
  else if [0xd0, 0xcf, 0x11, 0xe0].isPrefixOf file_bytes then (true, "xls")
  else (false, "unknown")

/-! Helper lemmas about prefixes. -/

theorem isPrefixOf_iff_nat {p l : List Nat} : p.isPrefixOf l = true ↔ p <+: l := by
  exact List.isPrefixOf_iff_prefix

theorem pk4_imp_pk2 {l : List Nat} (h : [0x50, 0x4B, 0x03, 0x04].isPrefixOf l = true) :
    [0x50, 0x4B].isPrefixOf l = true := by
  rw [isPrefixOf_iff_nat] at h ⊢
  exact List.IsPrefix.trans ⟨[0x03, 0x04], rfl⟩ h

theorem prefix_of_take_iff {p l : List Nat} {n : Nat} (hn : p.length ≤ n) :
    p.isPrefixOf (l.take n) = p.isPrefixOf l := by
  rcases h : p.isPrefixOf l with _ | _
  · rcases h2 : p.isPrefixOf (l.take n) with _ | _
    · rfl
    · exfalso
      rw [isPrefixOf_iff_nat] at h2
      have : p <+: l := h2.trans (List.take_prefix n l)
      rw [← isPrefixOf_iff_nat] at this
      simp [h] at this
  · rw [isPrefixOf_iff_nat] at h ⊢
    exact (List.prefix_take_iff).mpr ⟨h, hn⟩

theorem prefix_head {a : Nat} {p l : List Nat} (h : (a :: p).isPrefixOf l = true) :
    l.head? = some a := by
  rw [isPrefixOf_iff_nat] at h
  rcases h with ⟨t, ht⟩
  rw [← ht]
  rfl

/-- The result of `_is_excel_file` is a function of the first 8 bytes only. -/
theorem _is_excel_file_take8 (bs : List Nat) :
    _is_excel_file (bs.take 8) = _is_excel_file bs := by
  rcases le_or_lt bs.length 8 with h | h
  · rw [List.take_of_length_le h]
  · have h8 : (bs.take 8).length = 8 := by
      rw [List.length_take]
      omega
    unfold _is_excel_file
    rw [prefix_of_take_iff (by decide), prefix_of_take_iff (by decide),
        prefix_of_take_iff (by decide)]
    have c1 : ¬(bs.take 8 = [] ∨ (bs.take 8).length < 8) := by
      rintro (he | hl)
      · rw [he] at h8
        exact absurd h8 (by decide)
      · omega
    have c2 : ¬(bs = [] ∨ bs.length < 8) := by
      rintro (he | hl)
      · subst he
        simp at h
      · omega
    rw [if_neg c1, if_neg c2]

/-- Claim C2: `_is_excel_file` is a pure magic-byte prefix lookup: inputs
shorter than 8 bytes give `(false, "empty")`; inputs of length at least 8
give `(true, "xlsx")` on a `PK` prefix, `(true, "xls")` on a
`d0 cf 11 e0` prefix, and `(false, "unknown")` otherwise; and the result
depends only on the first 8 bytes. -/
theorem c2_is_excel_file_magic_bytes (bs : List Nat) :
    (bs.length < 8 → _is_excel_file bs = (false, "empty"))
    ∧ (8 ≤ bs.length → [0x50, 0x4B].isPrefixOf bs = true →
        _is_excel_file bs = (true, "xlsx"))
    ∧ (8 ≤ bs.length → [0xd0, 0xcf, 0x11, 0xe0].isPrefixOf bs = true →
        _is_excel_file bs = (true, "xls"))
    ∧ (8 ≤ bs.length → [0x50, 0x4B].isPrefixOf bs = false →
        [0xd0, 0xcf, 0x11, 0xe0].isPrefixOf bs = false →
        _is_excel_file bs = (false, "unknown"))
    ∧ (∀ cs : List Nat, bs.take 8 = cs.take 8 →
        _is_excel_file bs = _is_excel_file cs) := by
  refine ⟨?_, ?_, ?_, ?_, ?_⟩
  · intro h
    unfold _is_excel_file
    rw [if_pos (Or.inr h)]
  · intro h8 hpk
    have hcond : ¬(bs = [] ∨ bs.length < 8) := by
      rintro (he | hl)
      · subst he
        simp at h8
      · omega
    unfold _is_excel_file
    rw [if_neg hcond, if_pos (Or.inr hpk)]
  · intro h8 hole
    have hcond : ¬(bs = [] ∨ bs.length < 8) := by
      rintro (he | hl)
      · subst he
        simp at h8
      · omega
    have hd : bs.head? = some 0xd0 := prefix_head hole
    have hnpk : ¬([0x50, 0x4B, 0x03, 0x04].isPrefixOf bs = true
        ∨ [0x50, 0x4B].isPrefixOf bs = true) := by
      rintro (h4 | h2)
      · have hh := prefix_head h4
        rw [hd] at hh
        exact absurd hh (by decide)
      · have hh := prefix_head h2
        rw [hd] at hh
        exact absurd hh (by decide)
    unfold _is_excel_file
    rw [if_neg hcond, if_neg hnpk, if_pos hole]
  · intro h8 hpk hole
    have hcond : ¬(bs = [] ∨ bs.length < 8) := by
      rintro (he | hl)
      · subst he
        simp at h8
      · omega
    have hnpk : ¬([0x50, 0x4B, 0x03, 0x04].isPrefixOf bs = true
        ∨ [0x50, 0x4B].isPrefixOf bs = true) := by
      rintro (h4 | h2)
      · rw [pk4_imp_pk2 h4] at hpk
        exact absurd hpk (by decide)
      · rw [h2] at hpk
        exact absurd hpk (by decide)
    have hnole : ¬([0xd0, 0xcf, 0x11, 0xe0].isPrefixOf bs = true) := by
      intro h
      rw [h] at hole
      exact absurd hole (by decide)
    unfold _is_excel_file
    rw [if_neg hcond, if_neg hnpk, if_neg hnole]
  · intro cs h
    rw [← _is_excel_file_take8 bs, ← _is_excel_file_take8 cs, h]

/-! ## bitrix.core._b24_request
Embeds `src/bitrix/core.py` lines 128-155.  An HTTP attempt is modelled by
its outcome: success with a JSON value (abstracted to a `Nat`), a
`requests.exceptions.RequestException`, or any other exception.  The `while
count < 3` loop is embedded structurally on the remaining attempt budget
`3 - count`.  The embedding returns the result, the list of `time.sleep`
durations performed (in seconds, in order), and the number of attempts
made. -/

inductive ReqOutcome where
  | ok (v : Nat)
  | reqExc
  | otherExc
deriving DecidableEq

def b24_request_go (attempt : Nat → ReqOutcome) (count : Nat) :
    Nat → Option Nat × List Nat × Nat
  | 0 => (none, [], 0)
  | n + 1 =>
    match attempt count with
    | .ok v => (some v, [], 1)
    | .reqExc =>
      -- `except requests.exceptions.RequestException: count += 1; time.sleep(2)`
      let r := b24_request_go attempt (count + 1) n
      (r.1, 2 :: r.2.1, r.2.2 + 1)
    | .otherExc =>
      -- `except Exception as error: count += 1` (no sleep)
      let r := b24_request_go attempt (count + 1) n
      (r.1, r.2.1, r.2.2 + 1)

def _b24_request (attempt : Nat → ReqOutcome) : Option Nat × List Nat × Nat :=
  b24_request_go attempt 0 3

theorem b24_request_go_attempts_le (attempt : Nat → ReqOutcome) (n : Nat) :
    ∀ c, (b24_request_go attempt c n).2.2 ≤ n := by
  induction n with
  | zero => intro c; simp [b24_request_go]
  | succ n ih =>
    intro c
    cases h : attempt c <;> simp [b24_request_go, h]
    all_goals exact ih (c + 1)

theorem b24_request_go_sleeps (attempt : Nat → ReqOutcome) (n : Nat) :
    ∀ c, ∀ d ∈ (b24_request_go attempt c n).2.1, d = 2 := by
  induction n with
  | zero => intro c d hd; simp [b24_request_go] at hd
  | succ n ih =>
    intro c d hd
    cases h : attempt c <;> simp [b24_request_go, h] at hd
    · rcases hd with hd | hd
      · exact hd
      · exact ih (c + 1) d hd
    · exact ih (c + 1) d hd

/-- Claim C6 counterexample: when every attempt fails with a requests
exception, `_b24_request` sleeps `[2, 2, 2]` — the delay between successive
attempts is constant, not growing, refuting the claimed backoff growth. -/
theorem c6_counterexample :
    (_b24_request (fun _ => ReqOutcome.reqExc)).2.1 = [2, 2, 2]
    ∧ ¬ ((_b24_request (fun _ => ReqOutcome.reqExc)).2.1.getD 0 0 <
         (_b24_request (fun _ => ReqOutcome.reqExc)).2.1.getD 1 0) :=
  ⟨rfl, by decide⟩

/-- Claim C6 (amended): for every sequence of attempt outcomes,
`_b24_request` makes at most 3 attempts and every delay it sleeps is the
fixed 2 seconds; when every attempt fails with a requests exception it
makes exactly 3 attempts, sleeps 2 seconds after each, and returns `None`
instead of propagating the exception. -/
theorem c6_b24_request_retry (attempt : Nat → ReqOutcome) :
    (_b24_request attempt).2.2 ≤ 3
    ∧ (∀ d ∈ (_b24_request attempt).2.1, d = 2)
    ∧ ((∀ n, attempt n = ReqOutcome.reqExc) →
        _b24_request attempt = (none, [2, 2, 2], 3)) := by
  refine ⟨b24_request_go_attempts_le attempt 3 0,
          b24_request_go_sleeps attempt 3 0, ?_⟩
  intro h
  simp [_b24_request, b24_request_go, h 0, h 1, h 2]

/-- Witness for C6 at the all-failing attempt sequence. -/
theorem c6_b24_request_retry_witness :
    _b24_request (fun _ => ReqOutcome.reqExc) = (none, [2, 2, 2], 3)
    ∧ (2 : Nat) = 2 :=
  ⟨(c6_b24_request_retry (fun _ => ReqOutcome.reqExc)).2.2 (fun _ => rfl),
   (c6_b24_request_retry (fun _ => ReqOutcome.reqExc)).2.1 2 (by decide)⟩

/-! ## bitrix.explorer dictionary cache
Embeds `src/bitrix/explorer.py` lines 29-42 (`_cache`, `_get_cached`,
`clear_cache`) and lines 307-321 (`Companies.types`).  The module-level
`_cache` dict and the count of Bitrix24 HTTP queries issued become an
explicit `ExplorerState`; the `query_to_bitrix("get_status_list", ...)`
response is a parameter (`none` models a failed / falsy response, and each
status is a `(NAME, STATUS_ID)` pair). -/

structure ExplorerState where
  cache : List (String × List (String × String))
  queries : Nat
deriving DecidableEq

def lookup_cache (cache : List (String × List (String × String)))
    (key : String) : Option (List (String × String)) :=
  match cache with
  | [] => none
  | (k, v) :: rest => if k = key then some v else lookup_cache rest key

/-- `load_types` inside `Companies.types`: `if not statuses: return {}` then
the `NAME → STATUS_ID` dict, kept as the association list itself. -/
def load_types (resp : Option (List (String × String))) :
    List (String × String) :=
  match resp with
  | none => []
  | some statuses => if statuses = [] then [] else statuses

/-- `Companies.types`: `_get_cached("company_types", load_types)` — on a
cache miss the loader runs (one query issued, `queries + 1`) and the result
is stored; on a hit the stored value is returned with no query. -/
def Companies.types (resp : Option (List (String × String)))
    (st : ExplorerState) : List (String × String) × ExplorerState :=
  match lookup_cache st.cache "company_types" with
  | some v => (v, st)
  | none =>
    (load_types resp,
     ⟨("company_types", load_types resp) :: st.cache, st.queries + 1⟩)

def clear_cache (st : ExplorerState) : ExplorerState := ⟨[], st.queries⟩

/-- Claim C7 counterexample: two successive calls to `Companies.types`
issue only one query — the second call reuses the stored result, so the
claim that every lookup issues a fresh request is false. -/
theorem c7_counterexample :
    ((Companies.types (some [("A", "1")])
        ((Companies.types (some [("A", "1")]) ⟨[], 0⟩).2)).2).queries = 1
    ∧ ¬ ((Companies.types (some [("A", "1")])
        ((Companies.types (some [("A", "1")]) ⟨[], 0⟩).2)).2).queries = 2 := by
  constructor
  · rfl
  · intro h
    exact absurd h (by decide)

/-- Claim C7 (amended): dictionary lookups in `bitrix.explorer` are cached
in a module-level dict: after a first call to `Companies.types`, a second
call returns the stored value and issues no new query (the state, including
the query count, is unchanged), whatever the second response would have
been; the only eviction is the manual `clear_cache`, which empties the
cache. -/
theorem c7_companies_types_cached (resp resp2 : Option (List (String × String)))
    (st : ExplorerState) :
    Companies.types resp2 (Companies.types resp st).2 = Companies.types resp st
    ∧ (clear_cache st).cache = [] := by
  constructor
  · unfold Companies.types
    cases h : lookup_cache st.cache "company_types" with
    | some v => simp [h]
    | none => simp [h, lookup_cache]
  · rfl

/-! ## bitrix.core.get_all_pages
Embeds `src/bitrix/core.py` lines 176-201.  A Bitrix24 list response is a
`result` item list (absent key modelled by `none`; items abstracted to
`Nat`) and a `next` value (`none` for a missing key; Python truthiness
makes `0` falsy).  `query_to_bitrix` returning `None` is `none`.  The
unbounded `while True` loop is embedded with explicit fuel; the embedding
also returns the list of requested `start` values in order and whether the
loop exited by itself (`true`) or ran out of fuel (`false`). -/

structure B24Response where
  result? : Option (List Nat)
  next? : Option Nat
deriving DecidableEq

/-- Items a page contributes to `data` (nothing when the `result` key is
missing or the whole response is `None`). -/
def pageItems (r : Option B24Response) : List Nat :=
  match r with
  | none => []
  | some resp => resp.result?.getD []

/-- The loop's continuation decision for one response: `some nxt` to
request page `nxt` next, `none` to break (response `None`, missing
`result` key, falsy `next`, or empty item list). -/
def pageCont (r : Option B24Response) : Option Nat :=
  match r with
  | none => none
  | some resp =>
    match resp.result? with
    | none => none
    | some items =>
      match resp.next? with
      | none => none
      | some nxt => if nxt = 0 ∨ items = [] then none else some nxt

def get_all_pages_loop (query : Nat → Option B24Response) (fuel : Nat)
    (start : Nat) (data visited : List Nat) : List Nat × List Nat × Bool :=
  match fuel with
  | 0 => (data, visited, false)
  | f + 1 =>
    let visited' := visited ++ [start]
    match query start with
    | none => (data, visited', true)
    | some resp =>
      match resp.result? with
      | none => (data, visited', true)
      | some items =>
        let data' := data ++ items
        match resp.next? with
        | none => (data', visited', true)
        | some nxt =>
          if nxt = 0 ∨ items = [] then (data', visited', true)
          else get_all_pages_loop query f nxt data' visited'

def get_all_pages (query : Nat → Option B24Response) (fuel : Nat) :
    List Nat × List Nat × Bool :=
  get_all_pages_loop query fuel 0 [] []

/-- Accumulator-free form of the loop, used to reason about it. -/
def pages_run (query : Nat → Option B24Response) :
    Nat → Nat → List Nat × List Nat × Bool
  | 0, _ => ([], [], false)
  | f + 1, start =>
    match pageCont (query start) with
    | none => (pageItems (query start), [start], true)
    | some nxt =>
      let r := pages_run query f nxt
      (pageItems (query start) ++ r.1, start :: r.2.1, r.2.2)

theorem pages_run_succ (query : Nat → Option B24Response) (f start : Nat) :
    pages_run query (f + 1) start =
      (match pageCont (query start) with
      | none => (pageItems (query start), [start], true)
      | some nxt =>
        (pageItems (query start) ++ (pages_run query f nxt).1,
         start :: (pages_run query f nxt).2.1,
         (pages_run query f nxt).2.2)) := rfl

theorem get_all_pages_loop_eq (query : Nat → Option B24Response) :
    ∀ (fuel start : Nat) (data visited : List Nat),
    get_all_pages_loop query fuel start data visited =
      (data ++ (pages_run query fuel start).1,
       visited ++ (pages_run query fuel start).2.1,
       (pages_run query fuel start).2.2) := by
  intro fuel
  induction fuel with
  | zero => intro start data visited; simp [get_all_pages_loop, pages_run]
  | succ f ih =>
    intro start data visited
    rw [pages_run_succ]
    show (match query start with
      | none => (data, visited ++ [start], true)
      | some resp =>
        match resp.result? with
        | none => (data, visited ++ [start], true)
        | some items =>
          match resp.next? with
          | none => (data ++ items, visited ++ [start], true)
          | some nxt =>
            if nxt = 0 ∨ items = [] then (data ++ items, visited ++ [start], true)
            else get_all_pages_loop query f nxt (data ++ items) (visited ++ [start])) = _
    cases hq : query start with
    | none => simp [pageCont, pageItems, hq]
    | some resp =>
      cases hr : resp.result? with
      | none => simp [pageCont, pageItems, hq, hr]
      | some items =>
        cases hn : resp.next? with
        | none => simp [pageCont, pageItems, hq, hr, hn]
        | some nxt =>
          by_cases hc : nxt = 0 ∨ items = []
          · simp [pageCont, pageItems, hq, hr, hn, hc]
          · simp [pageCont, pageItems, hq, hr, hn, hc, ih]

theorem get_all_pages_eq_run (query : Nat → Option B24Response) (fuel : Nat) :
    get_all_pages query fuel = pages_run query fuel 0 := by
  rw [get_all_pages, get_all_pages_loop_eq]
  simp

theorem pages_run_head (query : Nat → Option B24Response) (f start : Nat) :
    ((pages_run query (f + 1) start).2.1).head? = some start := by
  rw [pages_run_succ]
  cases pageCont (query start) <;> simp

theorem pages_run_data (query : Nat → Option B24Response) :
    ∀ (f start : Nat),
    (pages_run query f start).1 =
      ((pages_run query f start).2.1.map (fun s => pageItems (query s))).flatten := by
  intro f
  induction f with
  | zero => intro start; simp [pages_run]
  | succ f ih =>
    intro start
    rw [pages_run_succ]
    cases hc : pageCont (query start) with
    | none => simp
    | some nxt => simp [ih nxt]

theorem pages_run_chain (query : Nat → Option B24Response) :
    ∀ (f start i a b : Nat),
    (pages_run query f start).2.1[i]? = some a →
    (pages_run query f start).2.1[i+1]? = some b →
    pageCont (query a) = some b := by
  intro f
  induction f with
  | zero => intro start i a b ha hb; simp [pages_run] at ha
  | succ f ih =>
    intro start i a b ha hb
    rw [pages_run_succ] at ha hb
    cases hc : pageCont (query start) with
    | none =>
      rw [hc] at ha hb
      simp at ha hb
    | some nxt =>
      rw [hc] at ha hb
      simp at ha hb
      cases i with
      | zero =>
        simp at ha hb
        cases f with
        | zero => simp [pages_run] at hb
        | succ f2 =>
          have hh := pages_run_head query f2 nxt
          rw [List.head?_eq_getElem?] at hh
          rw [hb] at hh
          subst ha
          rw [hc]
          exact congrArg some (Option.some.inj hh).symm
      | succ j =>
        simp at ha hb
        exact ih nxt j a b ha hb

theorem pages_run_term (query : Nat → Option B24Response) :
    ∀ (f start l : Nat),
    (pages_run query f start).2.1.getLast? = some l →
    ((pages_run query f start).2.2 = true ↔ pageCont (query l) = none) := by
  intro f
  induction f with
  | zero => intro start l hl; simp [pages_run] at hl
  | succ f ih =>
    intro start l hl
    rw [pages_run_succ] at hl ⊢
    cases hc : pageCont (query start) with
    | none =>
      rw [hc] at hl
      simp at hl
      show true = true ↔ pageCont (query l) = none
      rw [← hl]
      simp [hc]
    | some nxt =>
      rw [hc] at hl
      replace hl : (start :: (pages_run query f nxt).2.1).getLast? = some l := hl
      show (pages_run query f nxt).2.2 = true ↔ pageCont (query l) = none
      cases hrest : (pages_run query f nxt).2.1 with
      | nil =>
        rw [hrest] at hl
        simp at hl
        cases f with
        | zero =>
          rw [← hl]
          simp [pages_run, hc]
        | succ f2 =>
          have hh := pages_run_head query f2 nxt
          rw [hrest] at hh
          simp at hh
      | cons x xs =>
        rw [hrest] at hl
        simp at hl
        have hx := ih nxt l
        rw [hrest] at hx
        exact hx hl

theorem c2_is_excel_file_magic_bytes_witness :
    _is_excel_file [1, 2, 3] = (false, "empty")
    ∧ _is_excel_file [0x50, 0x4B, 0, 0, 0, 0, 0, 0] = (true, "xlsx")
    ∧ _is_excel_file [0xd0, 0xcf, 0x11, 0xe0, 0, 0, 0, 0] = (true, "xls")
    ∧ _is_excel_file [9, 9, 9, 9, 9, 9, 9, 9] = (false, "unknown") :=
  ⟨(c2_is_excel_file_magic_bytes [1, 2, 3]).1 (by decide),
   (c2_is_excel_file_magic_bytes [0x50, 0x4B, 0, 0, 0, 0, 0, 0]).2.1
     (by decide) (by decide),
   (c2_is_excel_file_magic_bytes [0xd0, 0xcf, 0x11, 0xe0, 0, 0, 0, 0]).2.2.1
     (by decide) (by decide),
   (c2_is_excel_file_magic_bytes [9, 9, 9, 9, 9, 9, 9, 9]).2.2.2.1
     (by decide) (by decide) (by decide)⟩


/-- Claim C4 counterexample: with a server whose every response points
`next` at start 5, `get_all_pages` requests page 5 twice (requested starts
`[0, 5, 5]` within 3 iterations), refuting "no page is requested twice". -/
theorem c4_counterexample :
    (get_all_pages (fun s => some ⟨some [s + 1], some 5⟩) 3).2.1 = [0, 5, 5]
    ∧ ¬ (get_all_pages (fun s => some ⟨some [s + 1], some 5⟩) 3).2.1.Nodup := by
  refine ⟨rfl, ?_⟩
  intro h
  rw [show (get_all_pages (fun s => some ⟨some [s + 1], some 5⟩) 3).2.1
      = [0, 5, 5] from rfl] at h
  simp [List.nodup_cons] at h

/-- Claim C4 (amended): `get_all_pages` starts at `start = 0`, appends each
response's `result` items to one accumulating list whose final value is the
concatenation of all requested pages' items in request order, moves to each
response's `next` value, and exits the loop exactly when a response is
`None` or lacks a `result` key, has no truthy `next`, or has an empty item
list — but a page can be requested more than once (and the loop need not
terminate) when a response's `next` repeats an earlier start.  Stated over
the fuelled embedding: within any fuel bound, the requested starts begin at
0, consecutive requested starts follow `pageCont`, the data is the
concatenation of the requested pages' items, and the loop exited by itself
iff the last requested page satisfies a break condition. -/
theorem c4_get_all_pages_pagination (query : Nat → Option B24Response)
    (fuel : Nat) :
    (get_all_pages query (fuel + 1)).2.1.head? = some 0
    ∧ (get_all_pages query (fuel + 1)).1 =
        ((get_all_pages query (fuel + 1)).2.1.map
          (fun s => pageItems (query s))).flatten
    ∧ (∀ i a b, (get_all_pages query (fuel + 1)).2.1[i]? = some a →
        (get_all_pages query (fuel + 1)).2.1[i+1]? = some b →
        pageCont (query a) = some b)
    ∧ (∀ l, (get_all_pages query (fuel + 1)).2.1.getLast? = some l →
        ((get_all_pages query (fuel + 1)).2.2 = true ↔
          pageCont (query l) = none)) := by
  rw [get_all_pages_eq_run]
  exact ⟨pages_run_head query fuel 0, pages_run_data query (fuel + 1) 0,
         fun i a b => pages_run_chain query (fuel + 1) 0 i a b,
         fun l => pages_run_term query (fuel + 1) 0 l⟩

/-- Witness for C4 at a two-page server: page 0 yields item 7 and points to
page 1; page 1 yields item 8 and has no `next`. -/
theorem c4_get_all_pages_pagination_witness :
    pageCont ((fun s => if s = 0 then some ⟨some [7], some 1⟩
        else some ⟨some [8], none⟩) 0) = some 1
    ∧ pageCont ((fun s => if s = 0 then some ⟨some [7], some 1⟩
        else some ⟨some [8], none⟩) 1) = none :=
  ⟨(c4_get_all_pages_pagination
      (fun s => if s = 0 then some ⟨some [7], some 1⟩
        else some ⟨some [8], none⟩) 1).2.2.1 0 0 1 (by decide) (by decide),
   ((c4_get_all_pages_pagination
      (fun s => if s = 0 then some ⟨some [7], some 1⟩
        else some ⟨some [8], none⟩) 1).2.2.2 1 (by decide)).mp (by decide)⟩

/-! ## read_pass.core
Embeds `src/read_pass/core.py`.  Text (phrases, passwords, tokens) is a
`List Nat` of Unicode code points; `.encode()`/`.decode()` pairs are the
identity in this model. -/

/-- The urlsafe base64 alphabet (`A-Z a-z 0-9 - _`) as byte values. -/
def b64_url_alphabet : List Nat :=
  ("ABCDEFGHIJKLMNOPQRSTUVWXYZabcdefghijklmnopqrstuvwxyz0123456789-_".toList).map
    Char.toNat

def b64_url_char (n : Nat) : Nat := b64_url_alphabet.getD n 0

/-- `base64.urlsafe_b64encode` (Python standard library): 3 input bytes
become 4 alphabet bytes, with `=` (61) padding. -/
def urlsafe_b64encode : List Nat → List Nat
  | [] => []
  | [b1] => [b64_url_char (b1 / 4), b64_url_char (b1 % 4 * 16), 61, 61]
  | [b1, b2] => [b64_url_char (b1 / 4), b64_url_char (b1 % 4 * 16 + b2 / 16),
                 b64_url_char (b2 % 16 * 4), 61]
  | b1 :: b2 :: b3 :: rest =>
    b64_url_char (b1 / 4) :: b64_url_char (b1 % 4 * 16 + b2 / 16) ::
    b64_url_char (b2 % 16 * 4 + b3 / 64) :: b64_url_char (b3 % 64) ::
    urlsafe_b64encode rest

/-- Modelled from the spec: `hashlib.sha256(...).digest()` (Python standard
library, not part of this repository's sources).  The spec's claim about
password encryption relies only on the digest being a deterministic
function of the phrase producing a fixed 32-byte value, so the SHA-256
compression rounds are modelled by a deterministic 32-byte mixing fold
rather than re-implemented bit for bit. -/
def sha256_digest_model (bs : List Nat) : List Nat :=
  (List.range 32).map
    (fun i => bs.foldl (fun acc b => (acc * 131 + b + 1) % 256) ((i * 37 + 11) % 256))

/-- `_generate_key_from_phrase` (`src/read_pass/core.py` lines 45-57):
`base64.urlsafe_b64encode(hashlib.sha256(phrase.encode()).digest())`.  The
`except` branch returning `None` is unreachable in the model but kept in
the type. -/
def _generate_key_from_phrase (phrase : List Nat) : Option (List Nat) :=
  some (urlsafe_b64encode (sha256_digest_model phrase))

/-- Modelled from the spec: `cryptography.fernet.Fernet` (third-party
library, not part of this repository's sources) — authenticated symmetric
encryption whose documented contract is all the repository relies on:
decrypting a token with the key that produced it returns the original
plaintext, and decrypting with a non-matching key or a malformed token
fails.  The model realises the authentication check by carrying the key at
the front of the token. -/
def fernet_encrypt (key msg : List Nat) : List Nat := key ++ msg

def invalid_token_text : List Nat := ("InvalidToken".toList).map Char.toNat

def fernet_decrypt (key token : List Nat) : Except (List Nat) (List Nat) :=
  if key.isPrefixOf token then Except.ok (token.drop key.length)
  else Except.error invalid_token_text

/-- The in-band error marker, `"Ошибка дешифровки: "`. -/
def decrypt_error_text : List Nat := ("Ошибка дешифровки: ".toList).map Char.toNat

/-- `_decrypt_password_fernet` (`src/read_pass/core.py` lines 60-72): every
failure path is caught and turned into the in-band error string
`f"Ошибка дешифровки: {e}"`. -/
def _decrypt_password_fernet (encrypted_password phrase : List Nat) : List Nat :=
  match _generate_key_from_phrase phrase with
  | none => decrypt_error_text
  | some key =>
    match fernet_decrypt key encrypted_password with
    | Except.ok m => m
    | Except.error e => decrypt_error_text ++ e

/-- `encrypt_password_fernet` (`src/read_pass/core.py` lines 130-141); the
phrase fetched by `_read_pass_from_nowere()` is an explicit parameter, and
`raise ValueError` on a missing key is the `error` branch. -/
def encrypt_password_fernet (phrase password : List Nat) : Except Unit (List Nat) :=
  match _generate_key_from_phrase phrase with
  | none => Except.error ()
  | some key => Except.ok (fernet_encrypt key password)

structure EmailPass where
  email : List Nat
  password : List Nat
deriving DecidableEq

inductive ReadPassResult where
  | single (r : EmailPass)
  | many (rs : List EmailPass)
deriving DecidableEq

/-- The `for email, password in data_mails_from_db` loop of `read_pass`
(`src/read_pass/core.py` lines 107-127): a matching `manager_email` returns
that single record at once; otherwise every record is accumulated. -/
def read_pass_loop (phrase : List Nat) (manager_email : Option (List Nat)) :
    List (List Nat × List Nat) → ReadPassResult
  | [] => ReadPassResult.many []
  | (em, pw) :: rest =>
    -- `if manager_email and email == manager_email` (`None` and `""` falsy)
    if (match manager_email with
        | some m => decide (m ≠ []) && (em == m)
        | none => false) then
      ReadPassResult.single ⟨em, _decrypt_password_fernet pw phrase⟩
    else
      match read_pass_loop phrase manager_email rest with
      | ReadPassResult.single r => ReadPassResult.single r
      | ReadPassResult.many rs =>
        ReadPassResult.many (⟨em, _decrypt_password_fernet pw phrase⟩ :: rs)

/-- `read_pass`: the final `if data_mails != {}` compares a list with a
dict and is always true in Python, so the accumulated list is always
returned when no manager entry matched. -/
def read_pass (phrase : List Nat) (db : List (List Nat × List Nat))
    (manager_email : Option (List Nat)) : ReadPassResult :=
  read_pass_loop phrase manager_email db

/-- Claim C5: encrypting then decrypting a password with the same phrase is
the identity: `encrypt_password_fernet` succeeds with a token that
`_decrypt_password_fernet` maps back to the original password, because the
Fernet key is derived deterministically from the phrase as the
urlsafe-base64 encoding of its SHA-256 digest. -/
theorem c5_encrypt_decrypt_roundtrip (phrase password : List Nat) :
    ∃ tok, encrypt_password_fernet phrase password = Except.ok tok
      ∧ _decrypt_password_fernet tok phrase = password := by
  refine ⟨fernet_encrypt (urlsafe_b64encode (sha256_digest_model phrase)) password,
          rfl, ?_⟩
  have hp : (urlsafe_b64encode (sha256_digest_model phrase)).isPrefixOf
      (urlsafe_b64encode (sha256_digest_model phrase) ++ password) = true := by
    rw [isPrefixOf_iff_nat]
    exact ⟨password, rfl⟩
  simp [_decrypt_password_fernet, _generate_key_from_phrase, fernet_decrypt,
        fernet_encrypt, hp]

/-- Claim C9: `_decrypt_password_fernet` never raises: any decryption
failure produces the in-band Russian error string beginning
`"Ошибка дешифровки: "` (the function's return type is a plain string
either way), and `read_pass` places exactly that function's result — error
string or password alike — in the `password` field of its result. -/
theorem c9_decrypt_returns_error_string (enc phrase em : List Nat)
    (db : List (List Nat × List Nat)) :
    (∀ key e, _generate_key_from_phrase phrase = some key →
        fernet_decrypt key enc = Except.error e →
        _decrypt_password_fernet enc phrase = decrypt_error_text ++ e)
    ∧ (em ≠ [] →
        read_pass phrase ((em, enc) :: db) (some em) =
          ReadPassResult.single ⟨em, _decrypt_password_fernet enc phrase⟩) := by
  constructor
  · intro key e hk he
    unfold _decrypt_password_fernet
    rw [hk]
    show (match fernet_decrypt key enc with
      | Except.ok m => m
      | Except.error e => decrypt_error_text ++ e) = decrypt_error_text ++ e
    rw [he]
  · intro hne
    unfold read_pass read_pass_loop
    simp [hne]

/-- Witness for C9: a malformed one-byte token decrypts to the in-band
error string, and `read_pass` returns it in the password field. -/
theorem c9_decrypt_returns_error_string_witness :
    _decrypt_password_fernet [1] [112] = decrypt_error_text ++ invalid_token_text
    ∧ read_pass [112] [([97], [1])] (some [97]) =
        ReadPassResult.single ⟨[97], _decrypt_password_fernet [1] [112]⟩ :=
  ⟨(c9_decrypt_returns_error_string [1] [112] [97] []).1
      (urlsafe_b64encode (sha256_digest_model [112])) invalid_token_text rfl rfl,
   (c9_decrypt_returns_error_string [1] [112] [97] []).2 (by decide)⟩

/-! ## mail_scan.utilities._parse_date and parse_email_message (date check)
Embeds `src/mail_scan/utilities.py` lines 578-591 and 776-821.  The
`email.utils.parsedate_tz`/`mktime_tz` pipeline is a parameter returning a
timestamp (`Nat`) or `None`; the rest of the per-message field extraction
is abstracted into a `build` parameter since the claim concerns only the
date-filter comparison at the top of `parse_email_message`. -/

def _parse_date (parsedate : String → Option Nat) (date_header : Option String) :
    Option Nat :=
  match date_header with
  | none => none
  | some s => parsedate s

/-- Python's `None < datetime` comparison: raises `TypeError` when the left
side is `None`. -/
def py_lt_opt (a : Option Nat) (b : Nat) : Except String Bool :=
  match a with
  | none => Except.error "TypeError"
  | some x => Except.ok (decide (x < b))

structure MsgModel where
  dateHeader : Option String
  raw : List Nat

def parse_email_message (parsedate : String → Option Nat)
    (build : MsgModel → List Nat) (msg : MsgModel) (date_filter : Option Nat) :
    Except String (Option (List Nat)) :=
  let msg_date := _parse_date parsedate msg.dateHeader
  match date_filter with
  | none => Except.ok (some (build msg))
  | some df =>
    match py_lt_opt msg_date df with
    | Except.error e => Except.error e
    | Except.ok true => Except.ok none
    | Except.ok false => Except.ok (some (build msg))

/-- Claim C10: with a non-`None` date filter, a message whose `Date` header
fails to parse (`_parse_date` returns `None`) makes `parse_email_message`
raise `TypeError` from `None < datetime` instead of skipping or returning;
and the skip branch (`Except.ok none`) is reached only when the date parsed
successfully (and is below the filter). -/
theorem c10_parse_email_message_date_typeerror (parsedate : String → Option Nat)
    (build : MsgModel → List Nat) (msg : MsgModel) (df : Nat) :
    (_parse_date parsedate msg.dateHeader = none →
      parse_email_message parsedate build msg (some df) = Except.error "TypeError")
    ∧ (parse_email_message parsedate build msg (some df) = Except.ok none →
        ∃ d, _parse_date parsedate msg.dateHeader = some d ∧ d < df) := by
  constructor
  · intro h
    simp [parse_email_message, py_lt_opt, h]
  · intro h
    unfold parse_email_message at h
    cases hd : _parse_date parsedate msg.dateHeader with
    | none => simp [py_lt_opt, hd] at h
    | some d =>
      by_cases hlt : d < df
      · exact ⟨d, rfl, hlt⟩
      · simp [py_lt_opt, hd, hlt] at h

/-- Witness for C10: an unparseable date with filter 5 raises `TypeError`;
a parsed date 1 with filter 5 hits the skip branch. -/
theorem c10_parse_email_message_date_typeerror_witness :
    parse_email_message (fun _ => none) (fun m => m.raw)
        ⟨some "bad", [3]⟩ (some 5) = Except.error "TypeError"
    ∧ ∃ d, _parse_date (fun _ => some 1) (some "x") = some d ∧ d < 5 :=
  ⟨(c10_parse_email_message_date_typeerror (fun _ => none) (fun m => m.raw)
      ⟨some "bad", [3]⟩ 5).1 rfl,
   (c10_parse_email_message_date_typeerror (fun _ => some 1) (fun m => m.raw)
      ⟨some "x", [3]⟩ 5).2 rfl⟩

/-! ## mail_scan.core.YandexMailScanner.scan_messages
Embeds `src/mail_scan/core.py` lines 270-358.  The IMAP server is a model:
`selectOk` is whether selecting a folder succeeds, `searchIds` maps
(folder, criteria) to the message-id list (`none` when the search
operation fails), and `fetchParse` is the fetch-and-parse pipeline for one
message (`none` when fetching fails or `parse_email_message` returns
`None`).  The embedding returns the accumulated emails and a log of the
searches issued: (folder, criteria used, number of messages processed). -/

structure ImapModel where
  selectOk : String → Bool
  searchIds : String → String → Option (List Nat)
  fetchParse : Nat → Option (List Nat)

/-- The hard-coded criteria of line 274. -/
def fixed_search_criteria : String := "SINCE \"25-Mar-2025\" BEFORE \"26-Jun-2025\""

/-- One folder's processing: failed select or failed/empty search yields
nothing; otherwise messages are processed in order, with the
`if i == 1001: break` cap — indices 0..1000, i.e. at most 1001 messages. -/
def scan_folder (m : ImapModel) (folder crit : String) :
    List (List Nat) × Nat :=
  if m.selectOk folder = true then
    match m.searchIds folder crit with
    | none => ([], 0)
    | some [] => ([], 0)
    | some ids => ((ids.take 1001).filterMap m.fetchParse, min ids.length 1001)
  else ([], 0)

def scan_messages_folders (m : ImapModel) (crit : String) :
    List String → List (List Nat) × List (String × String × Nat)
  | [] => ([], [])
  | f :: fs =>
    -- `if folder != "INBOX": continue`
    if f = "INBOX" then
      let s := scan_folder m f crit
      let r := scan_messages_folders m crit fs
      (s.1 ++ r.1, (f, crit, s.2) :: r.2)
    else scan_messages_folders m crit fs

def scan_messages (m : ImapModel) (last_date : String)
    (search_criteria : Option String) (folders_list : List String) :
    List (List Nat) × List (String × String × Nat) :=
  -- `if search_criteria is None: search_criteria = f'SINCE "{self.last_date}"'`
  -- ... immediately overwritten by the fixed criteria on line 274
  let _dead := match search_criteria with
    | none => "SINCE \"" ++ last_date ++ "\""
    | some c => c
  scan_messages_folders m fixed_search_criteria folders_list

theorem scan_folder_count_le (m : ImapModel) (folder crit : String) :
    (scan_folder m folder crit).2 ≤ 1001 := by
  unfold scan_folder
  by_cases h : m.selectOk folder = true
  · rw [if_pos h]
    cases hs : m.searchIds folder crit with
    | none => exact Nat.zero_le 1001
    | some ids =>
      cases ids with
      | nil => exact Nat.zero_le 1001
      | cons x xs => exact Nat.min_le_right _ 1001
  · rw [if_neg h]
    exact Nat.zero_le 1001

theorem scan_messages_folders_log (m : ImapModel) (crit : String) :
    ∀ fs, ∀ e ∈ (scan_messages_folders m crit fs).2,
      e.1 = "INBOX" ∧ e.2.1 = crit ∧ e.2.2 ≤ 1001 := by
  intro fs
  induction fs with
  | nil => intro e he; simp [scan_messages_folders] at he
  | cons f fs ih =>
    intro e he
    by_cases hf : f = "INBOX"
    · simp [scan_messages_folders, hf] at he
      rcases he with he | he
      · subst he
        exact ⟨rfl, rfl, scan_folder_count_le m "INBOX" crit⟩
      · exact ih e he
    · simp [scan_messages_folders, hf] at he
      exact ih e he

/-- Claim C8: `scan_messages` ignores both its `search_criteria` parameter
and the scanner's stored `last_date`: the result is identical for any
values of either, every issued search uses the fixed criteria
`SINCE "25-Mar-2025" BEFORE "26-Jun-2025"`, only the INBOX folder is
scanned, and at most 1001 messages are processed per folder. -/
theorem c8_scan_messages_fixed_criteria (m : ImapModel) (ld ld2 : String)
    (sc sc2 : Option String) (folders : List String) :
    scan_messages m ld sc folders = scan_messages m ld2 sc2 folders
    ∧ ∀ e ∈ (scan_messages m ld sc folders).2,
        e.1 = "INBOX" ∧ e.2.1 = fixed_search_criteria ∧ e.2.2 ≤ 1001 := by
  constructor
  · rfl
  · intro e he
    exact scan_messages_folders_log m fixed_search_criteria folders e he

/-- Witness for C8: a two-message INBOX is searched with the fixed
criteria and both messages are processed. -/
theorem c8_scan_messages_fixed_criteria_witness :
    ("INBOX", fixed_search_criteria, (2 : Nat)).1 = "INBOX"
    ∧ ("INBOX", fixed_search_criteria, (2 : Nat)).2.1 = fixed_search_criteria
    ∧ ("INBOX", fixed_search_criteria, (2 : Nat)).2.2 ≤ 1001 :=
  (c8_scan_messages_fixed_criteria
    ⟨fun _ => true, fun _ _ => some [1, 2], fun n => some [n]⟩
    "a" "b" none (some "x") ["INBOX", "Spam"]).2
    ("INBOX", fixed_search_criteria, 2) (by decide)

/-! ## mail_scan.utilities attachment extraction
Embeds `src/mail_scan/utilities.py` lines 110-137 (`_is_attachment`),
156-171 (`_validate_excel_content`), 174-229 (`_process_attachment`) and
274-318 (`extract_parts_from_email`).  An email part carries its content
type, optional `Content-Disposition`, optional filename and optional
decoded payload; a message is either non-multipart (one body part) or
multipart, holding the parts in the order `email_message.walk()` yields
them.  External ingredients are parameters: `readOk` models whether
`pandas.read_excel` succeeds on given bytes with a given engine,
`decodeFn` models `decode_filename` (MIME header decoding via the standard
library), `nowSuffix` models the `datetime.now().time()` fragment of the
safe filename, and `partHash` models Python's `hash(part)`. -/

structure PartData where
  contentType : String
  contentDisposition : Option String
  filename : Option String
  payload : Option (List Nat)
deriving DecidableEq

inductive EmailMsg where
  | single (p : PartData)
  | multipart (parts : List PartData)
deriving DecidableEq

/-- Python `str.lower` (ASCII case folding; nothing here depends on
non-ASCII folding). -/
def pyLower (s : String) : String := String.mk (s.toList.map Char.toLower)

/-- Python `in` substring test on character lists. -/
def containsSub (pat : List Char) : List Char → Bool
  | [] => pat.isEmpty
  | c :: rest => pat.isPrefixOf (c :: rest) || containsSub pat rest

def _is_attachment (partHash : PartData → Nat) (part : PartData) :
    Bool × Option String :=
  let cd := match part.contentDisposition with
    | some s => pyLower s
    | none => ""
  -- `if "attachment" in content_disposition`
  if containsSub ("attachment".toList) cd.toList then
    (true, some (match part.filename with
      | some f => if f ≠ "" then f else "attachment_" ++ toString (partHash part)
      | none => "attachment_" ++ toString (partHash part)))
  -- `if filename:`
  else if pyTruthyStr part.filename then (true, part.filename)
  -- non-text, non-multipart type with payload larger than 100 bytes
  else if part.contentType ≠ ""
      ∧ ¬ part.contentType.startsWith "text/"
      ∧ ¬ part.contentType.startsWith "multipart/" then
    match part.payload with
    | some payload =>
      if 100 < payload.length then
        (true, some ("attachment_" ++ toString payload.length))
      else (false, none)
    | none => (false, none)
  else (false, none)

/-- The standard base64 alphabet (`A-Z a-z 0-9 + /`) as byte values. -/
def b64_std_alphabet : List Nat :=
  ("ABCDEFGHIJKLMNOPQRSTUVWXYZabcdefghijklmnopqrstuvwxyz0123456789+/".toList).map
    Char.toNat

def b64_std_char (n : Nat) : Nat := b64_std_alphabet.getD n 0

/-- `base64.b64encode` (Python standard library). -/
def b64encode : List Nat → List Nat
  | [] => []
  | [b1] => [b64_std_char (b1 / 4), b64_std_char (b1 % 4 * 16), 61, 61]
  | [b1, b2] => [b64_std_char (b1 / 4), b64_std_char (b1 % 4 * 16 + b2 / 16),
                 b64_std_char (b2 % 16 * 4), 61]
  | b1 :: b2 :: b3 :: rest =>
    b64_std_char (b1 / 4) :: b64_std_char (b1 % 4 * 16 + b2 / 16) ::
    b64_std_char (b2 % 16 * 4 + b3 / 64) :: b64_std_char (b3 % 64) ::
    b64encode rest

/-- `_validate_excel_content`: tries `pandas.read_excel` with the engine
chosen by the detected format, `False` for any other format. -/
def _validate_excel_content (readOk : List Nat → String → Bool)
    (file_bytes : List Nat) (excel_format : String) : Bool :=
  if excel_format = "xlsx" then readOk file_bytes "openpyxl"
  else if excel_format = "xls" then readOk file_bytes "xlrd"
  else false

structure AttachmentData where
  filename : String
  original_filename : String
  payload : List Nat
  file_content : List Nat
  content_type : String
  excel_format : String
  size : Nat
deriving DecidableEq

/-- `_process_attachment`: the Python destructures
`is_excel, excel_format = _is_excel_file(payload)` once; the embedding
repeats the call, which is equal. -/
def _process_attachment (readOk : List Nat → String → Bool)
    (decodeFn : String → String) (nowSuffix : String)
    (part : PartData) (filename : String) : Option AttachmentData :=
  -- `decoded_filename = decode_filename(filename)` and
  -- `safe_filename = <now-suffix> + "_" + decoded_filename` appear inline
  match part.payload with
  | none => none
  | some payload =>
    -- `if not payload`
    if payload = [] then none
    -- `if not is_excel: return None`
    else if (_is_excel_file payload).1 = false then none
    -- `if not _validate_excel_content(payload, excel_format): return None`
    else if _validate_excel_content readOk payload (_is_excel_file payload).2
        = false then none
    else some ⟨nowSuffix ++ "_" ++ decodeFn filename, decodeFn filename,
               payload, b64encode payload,
               part.contentType, (_is_excel_file payload).2, payload.length⟩

/-- `if not filename: filename = "Входная_таблица"` (`None` and `""`
falsy). -/
def attachment_filename (o : Option String) : String :=
  match o with
  | some f => if f ≠ "" then f else "Входная_таблица"
  | none => "Входная_таблица"

def extract_parts_loop (readOk : List Nat → String → Bool)
    (decodeFn : String → String) (nowSuffix : String)
    (partHash : PartData → Nat) :
    List PartData → List (String × PartData) × List AttachmentData
  | [] => ([], [])
  | part :: rest =>
    if (_is_attachment partHash part).1 = true then
      match _process_attachment readOk decodeFn nowSuffix part
          (attachment_filename (_is_attachment partHash part).2) with
      | some a =>
        ((extract_parts_loop readOk decodeFn nowSuffix partHash rest).1,
         a :: (extract_parts_loop readOk decodeFn nowSuffix partHash rest).2)
      | none => extract_parts_loop readOk decodeFn nowSuffix partHash rest
    else if part.contentType = "text/plain" then
      (("plain", part) :: (extract_parts_loop readOk decodeFn nowSuffix partHash rest).1,
       (extract_parts_loop readOk decodeFn nowSuffix partHash rest).2)
    else if part.contentType = "text/html" then
      (("html", part) :: (extract_parts_loop readOk decodeFn nowSuffix partHash rest).1,
       (extract_parts_loop readOk decodeFn nowSuffix partHash rest).2)
    else extract_parts_loop readOk decodeFn nowSuffix partHash rest

def extract_parts_from_email (readOk : List Nat → String → Bool)
    (decodeFn : String → String) (nowSuffix : String)
    (partHash : PartData → Nat) (msg : EmailMsg) :
    List (String × PartData) × List AttachmentData :=
  match msg with
  | .single p => ([("plain", p)], [])
  | .multipart parts => extract_parts_loop readOk decodeFn nowSuffix partHash parts

theorem _process_attachment_some (readOk : List Nat → String → Bool)
    (decodeFn : String → String) (nowSuffix : String) (part : PartData)
    (filename : String) (a : AttachmentData)
    (h : _process_attachment readOk decodeFn nowSuffix part filename = some a) :
    _is_excel_file a.payload = (true, a.excel_format)
    ∧ _validate_excel_content readOk a.payload a.excel_format = true := by
  unfold _process_attachment at h
  cases hp : part.payload with
  | none =>
    rw [hp] at h
    exact absurd h (by simp)
  | some payload =>
    rw [hp] at h
    replace h : (if payload = [] then none
      else if (_is_excel_file payload).1 = false then none
      else if _validate_excel_content readOk payload (_is_excel_file payload).2
          = false then none
      else some (⟨nowSuffix ++ "_" ++ decodeFn filename, decodeFn filename,
        payload, b64encode payload, part.contentType,
        (_is_excel_file payload).2, payload.length⟩ : AttachmentData)) = some a := h
    by_cases h1 : payload = []
    · rw [if_pos h1] at h
      exact absurd h (by simp)
    · rw [if_neg h1] at h
      by_cases h2 : (_is_excel_file payload).1 = false
      · rw [if_pos h2] at h
        exact absurd h (by simp)
      · rw [if_neg h2] at h
        by_cases h3 : _validate_excel_content readOk payload
            (_is_excel_file payload).2 = false
        · rw [if_pos h3] at h
          exact absurd h (by simp)
        · rw [if_neg h3] at h
          have ha := Option.some.inj h
          subst ha
          constructor
          · have hb : (_is_excel_file payload).1 = true := by
              cases hbb : (_is_excel_file payload).1
              · exact absurd hbb h2
              · rfl
            show _is_excel_file payload = (true, (_is_excel_file payload).2)
            rw [show ((true, (_is_excel_file payload).2) : Bool × String)
                = ((_is_excel_file payload).1, (_is_excel_file payload).2) by rw [hb]]
          · show _validate_excel_content readOk payload (_is_excel_file payload).2 = true
            cases hbb : _validate_excel_content readOk payload (_is_excel_file payload).2
            · exact absurd hbb h3
            · rfl

theorem _is_excel_file_true_inv (bs : List Nat) (fmt : String)
    (h : _is_excel_file bs = (true, fmt)) :
    8 ≤ bs.length
    ∧ (([0x50, 0x4B].isPrefixOf bs = true ∧ fmt = "xlsx")
      ∨ ([0xd0, 0xcf, 0x11, 0xe0].isPrefixOf bs = true ∧ fmt = "xls")) := by
  unfold _is_excel_file at h
  by_cases h1 : bs = [] ∨ bs.length < 8
  · rw [if_pos h1] at h
    simp at h
  · rw [if_neg h1] at h
    push_neg at h1
    refine ⟨by omega, ?_⟩
    by_cases h2 : [0x50, 0x4B, 0x03, 0x04].isPrefixOf bs = true
        ∨ [0x50, 0x4B].isPrefixOf bs = true
    · rw [if_pos h2] at h
      have hfmt : fmt = "xlsx" := by
        have := (Prod.mk.injEq _ _ _ _).mp h
        exact this.2.symm
      refine Or.inl ⟨?_, hfmt⟩
      rcases h2 with h2 | h2
      · exact pk4_imp_pk2 h2
      · exact h2
    · rw [if_neg h2] at h
      by_cases h3 : [0xd0, 0xcf, 0x11, 0xe0].isPrefixOf bs = true
      · rw [if_pos h3] at h
        have hfmt : fmt = "xls" := by
          have := (Prod.mk.injEq _ _ _ _).mp h
          exact this.2.symm
        exact Or.inr ⟨h3, hfmt⟩
      · rw [if_neg h3] at h
        simp at h

theorem extract_parts_loop_mem (readOk : List Nat → String → Bool)
    (decodeFn : String → String) (nowSuffix : String)
    (partHash : PartData → Nat) :
    ∀ (parts : List PartData) (a : AttachmentData),
    a ∈ (extract_parts_loop readOk decodeFn nowSuffix partHash parts).2 →
    ∃ part filename,
      _process_attachment readOk decodeFn nowSuffix part filename = some a := by
  intro parts
  induction parts with
  | nil => intro a ha; simp [extract_parts_loop] at ha
  | cons part rest ih =>
    intro a ha
    unfold extract_parts_loop at ha
    by_cases hat : (_is_attachment partHash part).1 = true
    · rw [if_pos hat] at ha
      cases hpr : _process_attachment readOk decodeFn nowSuffix part
          (attachment_filename (_is_attachment partHash part).2) with
      | some b =>
        rw [hpr] at ha
        simp at ha
        rcases ha with ha | ha
        · subst ha
          exact ⟨part, attachment_filename (_is_attachment partHash part).2, hpr⟩
        · exact ih a ha
      | none =>
        rw [hpr] at ha
        exact ih a ha
    · rw [if_neg hat] at ha
      by_cases hcp : part.contentType = "text/plain"
      · rw [if_pos hcp] at ha
        exact ih a ha
      · rw [if_neg hcp] at ha
        by_cases hch : part.contentType = "text/html"
        · rw [if_pos hch] at ha
          exact ih a ha
        · rw [if_neg hch] at ha
          exact ih a ha

/-- Claim C1: every attachment record returned by
`extract_parts_from_email` has a payload that passed the Excel signature
check — at least 8 bytes long, starting with `PK` (classified `xlsx`) or
with `d0 cf 11 e0` (classified `xls`) — and also passed the subsequent
pandas read validation; attachments failing either check are skipped. -/
theorem c1_extracted_attachments_are_excel (readOk : List Nat → String → Bool)
    (decodeFn : String → String) (nowSuffix : String)
    (partHash : PartData → Nat) (msg : EmailMsg) :
    ∀ a ∈ (extract_parts_from_email readOk decodeFn nowSuffix partHash msg).2,
      8 ≤ a.payload.length
      ∧ (([0x50, 0x4B].isPrefixOf a.payload = true ∧ a.excel_format = "xlsx")
        ∨ ([0xd0, 0xcf, 0x11, 0xe0].isPrefixOf a.payload = true
            ∧ a.excel_format = "xls"))
      ∧ _validate_excel_content readOk a.payload a.excel_format = true := by
  intro a ha
  cases msg with
  | single p => simp [extract_parts_from_email] at ha
  | multipart parts =>
    obtain ⟨part, filename, hpr⟩ :=
      extract_parts_loop_mem readOk decodeFn nowSuffix partHash parts a ha
    obtain ⟨hex, hval⟩ :=
      _process_attachment_some readOk decodeFn nowSuffix part filename a hpr
    obtain ⟨hlen, hcase⟩ := _is_excel_file_true_inv a.payload a.excel_format hex
    exact ⟨hlen, hcase, hval⟩

/-- Witness for C1: a one-part multipart message with a PK-signature
payload yields exactly this attachment record. -/
def c1_attachment_example : AttachmentData :=
  ⟨"t_x.xlsx", "x.xlsx", [0x50, 0x4B, 3, 4, 0, 0, 0, 0],
   b64encode [0x50, 0x4B, 3, 4, 0, 0, 0, 0],
   "application/octet-stream", "xlsx", 8⟩

theorem c1_extracted_attachments_are_excel_witness :
    8 ≤ c1_attachment_example.payload.length
    ∧ (([0x50, 0x4B].isPrefixOf c1_attachment_example.payload = true
          ∧ c1_attachment_example.excel_format = "xlsx")
      ∨ ([0xd0, 0xcf, 0x11, 0xe0].isPrefixOf c1_attachment_example.payload = true
          ∧ c1_attachment_example.excel_format = "xls"))
    ∧ _validate_excel_content (fun _ _ => true) c1_attachment_example.payload
        c1_attachment_example.excel_format = true :=
  c1_extracted_attachments_are_excel (fun _ _ => true) (fun s => s) "t"
    (fun _ => 0)
    (EmailMsg.multipart [⟨"application/octet-stream", some "attachment",
      some "x.xlsx", some [0x50, 0x4B, 3, 4, 0, 0, 0, 0]⟩])
    c1_attachment_example (by decide)

/-! ## mail_scan.utilities.extract_email_body_universal_mode
Embeds `src/mail_scan/utilities.py` lines 352-414 together with the
signature helpers it calls (lines 662-750).  Text is a `List Char`.
`BeautifulSoup(...).get_text()` is an external HTML-to-text pass and is a
parameter; everything after it — entity decoding, signature extraction,
line filtering — is embedded from the source.  The regular expressions of
the filtering loop are `re.match` prefix tests and are embedded as
character-level matchers; `\d`, `\w` and `\s` are taken over ASCII (plus
the newline/tab/CR/FF/VT whitespace set), which is what the patterns in
question exercise. -/

/-- Python `str.strip` whitespace set (`' '`, `\t`, `\n`, `\r`, `\x0b`,
`\x0c`; exotic Unicode spaces elided). -/
def pySpaceChar (c : Char) : Bool :=
  c = ' ' || c = '\t' || c = '\n' || c = '\r' ||
  c = Char.ofNat 11 || c = Char.ofNat 12

/-- `line.strip()`. -/
def pyStrip (l : List Char) : List Char :=
  ((l.dropWhile pySpaceChar).reverse.dropWhile pySpaceChar).reverse

/-- `text.split("\n")`. -/
def splitNL : List Char → List (List Char)
  | [] => [[]]
  | c :: rest =>
    if c = '\n' then [] :: splitNL rest
    else
      match splitNL rest with
      | [] => [[c]]
      | h :: t => (c :: h) :: t

/-- `"\n".join(lines)`. -/
def joinNL : List (List Char) → List Char
  | [] => []
  | [l] => l
  | l :: l2 :: ls => l ++ '\n' :: joinNL (l2 :: ls)

/-- `re.sub(r"\n{3,}", "\n\n", result)`: every maximal run of 3 or more
newlines becomes exactly two; `run` counts the newlines read so far. -/
def collapseGo : Nat → List Char → List Char
  | run, [] => List.replicate (min run 2) '\n'
  | run, c :: rest =>
    if c = '\n' then collapseGo (run + 1) rest
    else List.replicate (min run 2) '\n' ++ c :: collapseGo 0 rest

/-- `email_body.replace("&lt;", "<")`: leftmost, non-overlapping, scanning
continues after each replacement. -/
def replace_lt : List Char → List Char
  | '&' :: 'l' :: 't' :: ';' :: rest => '<' :: replace_lt rest
  | c :: rest => c :: replace_lt rest
  | [] => []

/-- `.replace("&gt;", ">")`. -/
def replace_gt : List Char → List Char
  | '&' :: 'g' :: 't' :: ';' :: rest => '>' :: replace_gt rest
  | c :: rest => c :: replace_gt rest
  | [] => []

/-- `.replace("&amp;", "&")`. -/
def replace_amp : List Char → List Char
  | '&' :: 'a' :: 'm' :: 'p' :: ';' :: rest => '&' :: replace_amp rest
  | c :: rest => c :: replace_amp rest
  | [] => []

/-- The text entering signature extraction and line filtering: HTML
stripped, then the three sequential entity replacements. -/
def mode_text (htmlToText : List Char → List Char) (email_body : List Char) :
    List Char :=
  replace_amp (replace_gt (replace_lt (htmlToText email_body)))

/-- `re.match(r"^-{5,}$", line)`: the whole line is 5 or more dashes. -/
def is_quote_sep (s : List Char) : Bool :=
  decide (5 ≤ s.length) && s.all (fun c => c = '-')

/-- `re.match(r"^(Кому:|Тема:|От:|From:|To:|Subject:|Date:)", line)`. -/
def is_fwd_header (s : List Char) : Bool :=
  ["Кому:".toList, "Тема:".toList, "От:".toList, "From:".toList,
   "To:".toList, "Subject:".toList, "Date:".toList].any
    (fun p => p.isPrefixOf s)

def isDigitChar (c : Char) : Bool := c.isDigit

def time_prefix (s : List Char) : Bool :=
  match s with
  | h1 :: h2 :: c :: m1 :: m2 :: _ =>
    isDigitChar h1 && isDigitChar h2 && decide (c = ':') &&
    isDigitChar m1 && isDigitChar m2
  | _ => false

/-- The `,\s+\d{2}:\d{2}` tail of the date-time pattern, after the
comma. -/
def datetime_after_comma (s : List Char) : Bool :=
  match s with
  | sp :: rest => pySpaceChar sp && time_prefix (List.dropWhile pySpaceChar rest)
  | [] => false

/-- `re.match(r"^\d{2}\.\d{2}\.\d{4},\s+\d{2}:\d{2}", line)`. -/
def is_reply_datetime (s : List Char) : Bool :=
  match s with
  | d1 :: rest =>
    isDigitChar d1 &&
    (match rest with
     | d2 :: p1 :: d3 :: d4 :: p2 :: y1 :: y2 :: y3 :: y4 :: cm :: tail =>
       isDigitChar d2 && decide (p1 = '.') && isDigitChar d3 && isDigitChar d4 &&
       decide (p2 = '.') && isDigitChar y1 && isDigitChar y2 && isDigitChar y3 &&
       isDigitChar y4 && decide (cm = ',') && datetime_after_comma tail
     | _ => false)
  | [] => false

def isWordChar (c : Char) : Bool := c.isAlphanum || c = '_'

/-- Consume one or more `p`-characters (maximal munch; each token class in
the pattern below is followed by a disjoint class, so this equals the
regex). -/
def munch1 (p : Char → Bool) (s : List Char) : Option (List Char) :=
  match s with
  | c :: rest => if p c then some (rest.dropWhile p) else none
  | [] => none

/-- Consume a literal. -/
def lit : List Char → List Char → Option (List Char)
  | [], s => some s
  | _ :: _, [] => none
  | c :: cs, d :: ds => if c = d then lit cs ds else none

/-- Consume `[AP]`. -/
def litAP (s : List Char) : Option (List Char) :=
  match s with
  | c :: rest => if c = 'A' ∨ c = 'P' then some rest else none
  | [] => none

def ends_with (suf s : List Char) : Bool :=
  suf.reverse.isPrefixOf s.reverse

/-- `re.match(r"^On\s+\w+,\s+\w+\s+\d+,\s+\d+\s+at\s+\d+:\d+\s+[AP]M.*?wrote:$", line)`;
`.` does not match a newline and lines carry none, so the lazy tail plus
the anchor amount to an ends-with test. -/
def is_on_wrote (s : List Char) : Bool :=
  match (((((((((((((((((lit ("On".toList) s).bind
      (munch1 pySpaceChar)).bind (munch1 isWordChar)).bind
      (lit (",".toList))).bind (munch1 pySpaceChar)).bind
      (munch1 isWordChar)).bind (munch1 pySpaceChar)).bind
      (munch1 isDigitChar)).bind (lit (",".toList))).bind
      (munch1 pySpaceChar)).bind (munch1 isDigitChar)).bind
      (munch1 pySpaceChar)).bind (lit ("at".toList))).bind
      (munch1 pySpaceChar)).bind (munch1 isDigitChar)).bind
      (lit (":".toList))).bind (munch1 isDigitChar)).bind
      (munch1 pySpaceChar) with
  | none => false
  | some s1 =>
    match litAP s1 with
    | none => false
    | some s2 =>
      match lit ("M".toList) s2 with
      | none => false
      | some s3 => ends_with ("wrote:".toList) s3

def is_trigger_line (s : List Char) : Bool :=
  is_quote_sep s || is_fwd_header s || is_reply_datetime s || is_on_wrote s

/-- The filtering loop of `extract_email_body_universal_mode` (lines
373-405), with its exact branch order; `skip` is `skip_mode`. -/
def filterLines (skip : Bool) : List (List Char) → List (List Char)
  | [] => []
  | line :: rest =>
    if pyStrip line = [] then filterLines skip rest
    else if is_quote_sep (pyStrip line) then filterLines true rest
    else if (pyStrip line).head? = some '>' then filterLines skip rest
    else if is_fwd_header (pyStrip line) then filterLines true rest
    else if is_reply_datetime (pyStrip line) then filterLines true rest
    else if is_on_wrote (pyStrip line) then filterLines true rest
    else if skip then filterLines skip rest
    else pyStrip line :: filterLines skip rest

/-- `text.find(pat)` (`None` for Python's `-1`). -/
def find_sub (pat : List Char) : List Char → Option Nat
  | [] => if pat.isEmpty then some 0 else none
  | c :: rest =>
    if pat.isPrefixOf (c :: rest) then some 0
    else (find_sub pat rest).map (fun n => n + 1)

/-- `s.lstrip(chars)`. -/
def lstrip_chars (chars s : List Char) : List Char :=
  s.dropWhile (fun c => chars.contains c)

/-- Python `str.lower` over a character list (ASCII folding; the Cyrillic
keywords below are already lowercase). -/
def pyLowerList (l : List Char) : List Char := l.map Char.toLower

/-- `_is_valid_signature` (lines 662-702). -/
def _is_valid_signature (signature_text : List Char) : Bool :=
  let clean := pyStrip (signature_text.dropWhile (fun c => c = '-'))
  if clean.length < 10 ∨ 500 < clean.length then false
  else if ["кому:".toList, "от:".toList, "тема:".toList, "wrote:".toList,
      "отправлено:".toList, "переслано:".toList, "re:".toList,
      "fwd:".toList].any (fun k => containsSub k (pyLowerList clean)) then false
  else if 10 < (splitNL clean).length then false
  else true

/-- `extract_signature_from_text` (lines 705-750). -/
def extract_signature_from_text (text : List Char) : Option (List Char) :=
  if text = [] then none
  else
    let sep := match find_sub (" -- ".toList) text with
      | some p => some (p + 1)
      | none => find_sub ("--".toList) text
    match sep with
    | none => none
    | some pos =>
      let potential := text.drop pos
      match find_sub ("https://str-art.ru".toList) potential with
      | none => none
      | some cp =>
        let signature_text := pyStrip (lstrip_chars ("-- ".toList)
          (potential.take (cp + ("https://str-art.ru".toList).length)))
        if _is_valid_signature signature_text then some signature_text else none

def extract_email_body_universal_mode (htmlToText : List Char → List Char)
    (email_body : List Char) : List Char × Option (List Char) :=
  (pyStrip (collapseGo 0 (joinNL (filterLines false
      (splitNL (mode_text htmlToText email_body))))),
   extract_signature_from_text (mode_text htmlToText email_body))

/-- The lines the loop keeps out of a region with no trigger line:
stripped, non-empty, not starting with `>`. -/
def keptMap (ls : List (List Char)) : List (List Char) :=
  ls.filterMap (fun l =>
    if pyStrip l ≠ [] ∧ (pyStrip l).head? ≠ some '>' then some (pyStrip l)
    else none)

/-- The lines surviving the whole loop: the kept lines of the prefix
before the first trigger line. -/
def mode_kept (lines : List (List Char)) : List (List Char) :=
  keptMap (lines.take (lines.findIdx (fun l => is_trigger_line (pyStrip l))))

theorem splitNL_ne_nil (s : List Char) : splitNL s ≠ [] := by
  cases s with
  | nil => simp [splitNL]
  | cons c rest =>
    unfold splitNL
    by_cases h : c = '\n'
    · simp [h]
    · rw [if_neg h]
      cases splitNL rest <;> simp

theorem splitNL_no_nl (s : List Char) : ∀ l ∈ splitNL s, '\n' ∉ l := by
  induction s with
  | nil =>
    intro l hl
    simp [splitNL] at hl
    subst hl
    simp
  | cons c rest ih =>
    intro l hl
    unfold splitNL at hl
    by_cases h : c = '\n'
    · rw [if_pos h] at hl
      rcases (List.mem_cons).mp hl with hl | hl
      · subst hl
        simp
      · exact ih l hl
    · rw [if_neg h] at hl
      cases hsp : splitNL rest with
      | nil => exact absurd hsp (splitNL_ne_nil rest)
      | cons h0 t0 =>
        rw [hsp] at hl
        rcases (List.mem_cons).mp hl with hl | hl
        · subst hl
          intro hmem
          rcases (List.mem_cons).mp hmem with hm | hm
          · exact h hm.symm
          · exact ih h0 (by rw [hsp]; exact List.mem_cons_self h0 t0) hm
        · exact ih l (by rw [hsp]; exact List.mem_cons_of_mem h0 hl)

theorem splitNL_of_no_nl (l : List Char) (h : '\n' ∉ l) : splitNL l = [l] := by
  induction l with
  | nil => rfl
  | cons c rest ih =>
    have hc : c ≠ '\n' := fun he => h (he ▸ List.mem_cons_self c rest)
    have hr : '\n' ∉ rest := fun hm => h (List.mem_cons_of_mem c hm)
    unfold splitNL
    rw [if_neg (fun he => hc he), ih hr]

theorem splitNL_line_append (l r : List Char) (h : '\n' ∉ l) :
    splitNL (l ++ '\n' :: r) = l :: splitNL r := by
  induction l with
  | nil =>
    show splitNL ('\n' :: r) = [] :: splitNL r
    conv_lhs => rw [splitNL]
    rw [if_pos rfl]
  | cons c rest ih =>
    have hc : c ≠ '\n' := fun he => h (he ▸ List.mem_cons_self c rest)
    have hr : '\n' ∉ rest := fun hm => h (List.mem_cons_of_mem c hm)
    show splitNL (c :: (rest ++ '\n' :: r)) = (c :: rest) :: splitNL r
    conv_lhs => rw [splitNL]
    rw [if_neg hc, ih hr]

theorem joinNL_cons (l l2 : List Char) (ls : List (List Char)) :
    joinNL (l :: l2 :: ls) = l ++ '\n' :: joinNL (l2 :: ls) := rfl

theorem splitNL_joinNL (ls : List (List Char)) (hne : ls ≠ [])
    (h : ∀ l ∈ ls, '\n' ∉ l) : splitNL (joinNL ls) = ls := by
  induction ls with
  | nil => exact absurd rfl hne
  | cons l ls2 ih =>
    cases ls2 with
    | nil => exact splitNL_of_no_nl l (h l (List.mem_cons_self l []))
    | cons l2 ls3 =>
      rw [joinNL_cons, splitNL_line_append l _ (h l (List.mem_cons_self l _))]
      rw [ih (by simp) (fun x hx => h x (List.mem_cons_of_mem l hx))]

theorem dropWhile_head_false (p : Char → Bool) :
    ∀ (l : List Char) (c : Char) (rest : List Char),
    l.dropWhile p = c :: rest → p c = false := by
  intro l
  induction l with
  | nil => intro c rest h; simp [List.dropWhile] at h
  | cons a as ih =>
    intro c rest h
    rw [List.dropWhile_cons] at h
    by_cases hp : p a = true
    · rw [if_pos hp] at h
      exact ih c rest h
    · rw [if_neg hp] at h
      injection h with h1 _
      subst h1
      simpa using hp

theorem dropWhile_of_head_false (p : Char → Bool) (l : List Char)
    (h : ∀ c, l.head? = some c → p c = false) : l.dropWhile p = l := by
  cases l with
  | nil => rfl
  | cons a as =>
    rw [List.dropWhile_cons, if_neg]
    simp [h a rfl]

theorem pyStrip_sub (l : List Char) : ∀ c ∈ pyStrip l, c ∈ l := by
  intro c hc
  unfold pyStrip at hc
  rw [List.mem_reverse] at hc
  have h1 : c ∈ (l.dropWhile pySpaceChar).reverse :=
    (List.dropWhile_sublist pySpaceChar).subset hc
  rw [List.mem_reverse] at h1
  exact (List.dropWhile_sublist pySpaceChar).subset h1

theorem pyStrip_no_nl (l : List Char) (h : '\n' ∉ l) : '\n' ∉ pyStrip l :=
  fun hm => h (pyStrip_sub l '\n' hm)

theorem pyStrip_head_not_space (l : List Char) (c : Char)
    (h : (pyStrip l).head? = some c) : pySpaceChar c = false := by
  unfold pyStrip at h
  rw [List.head?_reverse] at h
  have hsuf := List.dropWhile_suffix (l := (l.dropWhile pySpaceChar).reverse)
    pySpaceChar
  obtain ⟨t, ht⟩ := hsuf
  have hne : (l.dropWhile pySpaceChar).reverse.dropWhile pySpaceChar ≠ [] := by
    intro hx
    rw [hx] at h
    simp at h
  have hx : ((l.dropWhile pySpaceChar).reverse.dropWhile pySpaceChar).getLast?
      = ((l.dropWhile pySpaceChar).reverse).getLast? := by
    conv_rhs => rw [← ht]
    rw [List.getLast?_append_of_ne_nil t hne]
  rw [hx, List.getLast?_reverse] at h
  cases hd : l.dropWhile pySpaceChar with
  | nil =>
    rw [hd] at h
    simp at h
  | cons d ds =>
    rw [hd] at h
    simp at h
    subst h
    exact dropWhile_head_false pySpaceChar l d ds hd

theorem pyStrip_last_not_space (l : List Char) (c : Char)
    (h : (pyStrip l).getLast? = some c) : pySpaceChar c = false := by
  unfold pyStrip at h
  rw [List.getLast?_reverse] at h
  cases hb : (l.dropWhile pySpaceChar).reverse.dropWhile pySpaceChar with
  | nil =>
    rw [hb] at h
    simp at h
  | cons d ds =>
    rw [hb] at h
    simp at h
    subst h
    exact dropWhile_head_false pySpaceChar _ d ds hb

theorem pyStrip_id (l : List Char)
    (h1 : ∀ c, l.head? = some c → pySpaceChar c = false)
    (h2 : ∀ c, l.getLast? = some c → pySpaceChar c = false) :
    pyStrip l = l := by
  unfold pyStrip
  rw [dropWhile_of_head_false pySpaceChar l h1]
  rw [dropWhile_of_head_false pySpaceChar l.reverse
    (by intro c hc; rw [List.head?_reverse] at hc; exact h2 c hc)]
  exact List.reverse_reverse l

theorem collapseGo_no_nl (l : List Char) (hl : '\n' ∉ l) (r : List Char) :
    collapseGo 0 (l ++ r) = l ++ collapseGo 0 r := by
  induction l with
  | nil => simp
  | cons c cs ih =>
    have hc : c ≠ '\n' := fun he => hl (he ▸ List.mem_cons_self c cs)
    have hcs : '\n' ∉ cs := fun hm => hl (List.mem_cons_of_mem c hm)
    show collapseGo 0 (c :: (cs ++ r)) = c :: (cs ++ collapseGo 0 r)
    conv_lhs => rw [collapseGo]
    rw [if_neg hc, ih hcs]
    rfl

theorem collapseGo_one (c : Char) (hc : c ≠ '\n') (r : List Char) :
    collapseGo 1 (c :: r) = '\n' :: collapseGo 0 (c :: r) := by
  conv_lhs => rw [collapseGo]
  conv_rhs => rw [collapseGo]
  rw [if_neg hc, if_neg hc]
  rfl

theorem joinNL_ne_nil (ls : List (List Char)) (hne : ls ≠ [])
    (h : ∀ l ∈ ls, l ≠ []) : joinNL ls ≠ [] := by
  cases ls with
  | nil => exact absurd rfl hne
  | cons l ls2 =>
    cases ls2 with
    | nil => exact h l (List.mem_cons_self l [])
    | cons l2 ls3 =>
      rw [joinNL_cons]
      intro hx
      rcases List.append_eq_nil.mp hx with ⟨_, h2⟩
      exact List.cons_ne_nil _ _ h2

theorem collapse_join (ls : List (List Char))
    (h : ∀ l ∈ ls, l ≠ [] ∧ '\n' ∉ l) :
    collapseGo 0 (joinNL ls) = joinNL ls := by
  induction ls with
  | nil => rfl
  | cons l ls2 ih =>
    cases ls2 with
    | nil =>
      show collapseGo 0 l = l
      have hx := collapseGo_no_nl l (h l (List.mem_cons_self l [])).2 []
      rw [List.append_nil] at hx
      rw [hx, show collapseGo 0 ([] : List Char) = [] from rfl, List.append_nil]
    | cons l2 ls3 =>
      rw [joinNL_cons]
      rw [collapseGo_no_nl l (h l (List.mem_cons_self l _)).2]
      congr 1
      conv_lhs => rw [collapseGo]
      rw [if_pos rfl]
      have hl2 := (h l2 (List.mem_cons_of_mem l (List.mem_cons_self l2 ls3))).1
      obtain ⟨c, cs, hcc⟩ : ∃ c cs, l2 = c :: cs := by
        cases l2 with
        | nil => exact absurd rfl hl2
        | cons c cs => exact ⟨c, cs, rfl⟩
      have hcnl : c ≠ '\n' := by
        intro he
        exact (h l2 (List.mem_cons_of_mem l (List.mem_cons_self l2 ls3))).2
          (by rw [hcc, he]; exact List.mem_cons_self _ _)
      have hjoin : ∃ r2, joinNL (l2 :: ls3) = c :: r2 := by
        cases ls3 with
        | nil => exact ⟨cs, by rw [hcc]; rfl⟩
        | cons l3 ls4 =>
          exact ⟨cs ++ '\n' :: joinNL (l3 :: ls4), by rw [joinNL_cons, hcc]; rfl⟩
      obtain ⟨r2, hr2⟩ := hjoin
      rw [hr2, collapseGo_one c hcnl r2, ← hr2]
      rw [ih (fun x hx => h x (List.mem_cons_of_mem l hx))]

theorem isPrefixOf_iff_char {p l : List Char} : p.isPrefixOf l = true ↔ p <+: l :=
  List.isPrefixOf_iff_prefix

theorem prefix_head?_eq {p l : List Char} (h : p.isPrefixOf l = true)
    (hne : p ≠ []) : l.head? = p.head? := by
  rw [isPrefixOf_iff_char] at h
  obtain ⟨t, rfl⟩ := h
  cases p with
  | nil => exact absurd rfl hne
  | cons a as => rfl

theorem ne_nil_of_head?_some {s : List Char} {c : Char}
    (h : s.head? = some c) : s ≠ [] := by
  cases s with
  | nil => simp at h
  | cons a as => exact List.cons_ne_nil a as

theorem is_quote_sep_props (s : List Char) (h : is_quote_sep s = true) :
    s ≠ [] ∧ s.head? ≠ some '>' := by
  unfold is_quote_sep at h
  rw [Bool.and_eq_true] at h
  obtain ⟨hlen, hall⟩ := h
  cases s with
  | nil => exact absurd hlen (by decide)
  | cons c cs =>
    rw [List.all_cons, Bool.and_eq_true] at hall
    have hc : c = '-' := by simpa using hall.1
    subst hc
    exact ⟨List.cons_ne_nil _ _, by simp⟩

theorem is_fwd_header_props (s : List Char) (h : is_fwd_header s = true) :
    s ≠ [] ∧ s.head? ≠ some '>' := by
  unfold is_fwd_header at h
  rw [List.any_eq_true] at h
  obtain ⟨p, hp, hpre⟩ := h
  simp only [List.mem_cons, List.not_mem_nil, or_false] at hp
  have hd : s.head? = p.head? := by
    apply prefix_head?_eq hpre
    rcases hp with hp | hp | hp | hp | hp | hp | hp <;> subst hp <;> decide
  have hne : s ≠ [] := by
    apply ne_nil_of_head?_some (c := p.head!)
    rw [hd]
    rcases hp with hp | hp | hp | hp | hp | hp | hp <;> subst hp <;> rfl
  refine ⟨hne, ?_⟩
  rw [hd]
  rcases hp with hp | hp | hp | hp | hp | hp | hp <;> subst hp <;> decide

theorem is_reply_datetime_props (s : List Char) (h : is_reply_datetime s = true) :
    s ≠ [] ∧ s.head? ≠ some '>' := by
  cases s with
  | nil => exact absurd h (by decide)
  | cons d1 rest =>
    refine ⟨List.cons_ne_nil _ _, ?_⟩
    simp only [is_reply_datetime, Bool.and_eq_true] at h
    intro hc
    have hd : d1 = '>' := by simpa using hc
    rw [hd] at h
    exact absurd h.1 (by decide)

theorem lit_On_head (s r : List Char) (h : lit ("On".toList) s = some r) :
    s.head? = some 'O' := by
  replace h : lit ['O', 'n'] s = some r := h
  cases s with
  | nil => simp [lit] at h
  | cons d ds =>
    by_cases hd : 'O' = d
    · rw [← hd]
      rfl
    · rw [show lit ['O', 'n'] (d :: ds) = if 'O' = d then lit ['n'] ds else none
          from rfl, if_neg hd] at h
      simp at h

theorem is_on_wrote_props (s : List Char) (h : is_on_wrote s = true) :
    s ≠ [] ∧ s.head? ≠ some '>' := by
  unfold is_on_wrote at h
  cases hfirst : lit ("On".toList) s with
  | none =>
    rw [hfirst] at h
    simp at h
  | some s1 =>
    have hh := lit_On_head s s1 hfirst
    exact ⟨ne_nil_of_head?_some hh, by rw [hh]; decide⟩

theorem trigger_line_props (s : List Char) (h : is_trigger_line s = true) :
    s ≠ [] ∧ s.head? ≠ some '>' := by
  unfold is_trigger_line at h
  simp only [Bool.or_eq_true] at h
  rcases h with ((h | h) | h) | h
  · exact is_quote_sep_props s h
  · exact is_fwd_header_props s h
  · exact is_reply_datetime_props s h
  · exact is_on_wrote_props s h

theorem filterLines_true (ls : List (List Char)) : filterLines true ls = [] := by
  induction ls with
  | nil => rfl
  | cons l rest ih =>
    unfold filterLines
    by_cases h1 : pyStrip l = []
    · rw [if_pos h1]; exact ih
    · rw [if_neg h1]
      by_cases h2 : is_quote_sep (pyStrip l) = true
      · rw [if_pos h2]; exact ih
      · rw [if_neg h2]
        by_cases h3 : (pyStrip l).head? = some '>'
        · rw [if_pos h3]; exact ih
        · rw [if_neg h3]
          by_cases h4 : is_fwd_header (pyStrip l) = true
          · rw [if_pos h4]; exact ih
          · rw [if_neg h4]
            by_cases h5 : is_reply_datetime (pyStrip l) = true
            · rw [if_pos h5]; exact ih
            · rw [if_neg h5]
              by_cases h6 : is_on_wrote (pyStrip l) = true
              · rw [if_pos h6]; exact ih
              · rw [if_neg h6, if_pos rfl]
                exact ih

theorem filterLines_false_eq (ls : List (List Char)) :
    filterLines false ls = mode_kept ls := by
  unfold mode_kept
  induction ls with
  | nil => rfl
  | cons l rest ih =>
    by_cases ht : is_trigger_line (pyStrip l) = true
    · have hfi : (l :: rest).findIdx (fun x => is_trigger_line (pyStrip x)) = 0 := by
        simp [List.findIdx_cons, ht]
      rw [hfi]
      show filterLines false (l :: rest) = keptMap []
      obtain ⟨hne, hgt⟩ := trigger_line_props (pyStrip l) ht
      have h4 := ht
      unfold is_trigger_line at h4
      simp only [Bool.or_eq_true] at h4
      unfold filterLines
      rw [if_neg hne]
      by_cases hq : is_quote_sep (pyStrip l) = true
      · rw [if_pos hq]; exact filterLines_true rest
      · rw [if_neg hq, if_neg hgt]
        by_cases hf : is_fwd_header (pyStrip l) = true
        · rw [if_pos hf]; exact filterLines_true rest
        · rw [if_neg hf]
          by_cases hd : is_reply_datetime (pyStrip l) = true
          · rw [if_pos hd]; exact filterLines_true rest
          · rw [if_neg hd]
            have hw : is_on_wrote (pyStrip l) = true := by
              rcases h4 with ((h | h) | h) | h
              · exact absurd h hq
              · exact absurd h hf
              · exact absurd h hd
              · exact h
            rw [if_pos hw]
            exact filterLines_true rest
    · have hxf : is_trigger_line (pyStrip l) = false := by
        cases hx : is_trigger_line (pyStrip l)
        · rfl
        · exact absurd hx ht
      have hfi : (l :: rest).findIdx (fun x => is_trigger_line (pyStrip x))
          = rest.findIdx (fun x => is_trigger_line (pyStrip x)) + 1 := by
        simp [List.findIdx_cons, hxf]
      rw [hfi, List.take_succ_cons]
      have hq : ¬ is_quote_sep (pyStrip l) = true := by
        intro hx
        exact ht (by unfold is_trigger_line; rw [hx]; rfl)
      have hf : ¬ is_fwd_header (pyStrip l) = true := by
        intro hx
        exact ht (by unfold is_trigger_line; rw [hx]; simp)
      have hd : ¬ is_reply_datetime (pyStrip l) = true := by
        intro hx
        exact ht (by unfold is_trigger_line; rw [hx]; simp)
      have hw : ¬ is_on_wrote (pyStrip l) = true := by
        intro hx
        exact ht (by unfold is_trigger_line; rw [hx]; simp)
      unfold filterLines
      by_cases h1 : pyStrip l = []
      · rw [if_pos h1, ih]
        unfold keptMap
        rw [List.filterMap_cons]
        rw [if_neg (by simp [h1])]
      · rw [if_neg h1, if_neg hq]
        by_cases h3 : (pyStrip l).head? = some '>'
        · rw [if_pos h3, ih]
          unfold keptMap
          rw [List.filterMap_cons]
          rw [if_neg (by simp [h3])]
        · rw [if_neg h3, if_neg hf, if_neg hd, if_neg hw,
              if_neg (by simp : ¬(false = true)), ih]
          unfold keptMap
          rw [List.filterMap_cons]
          rw [if_pos ⟨h1, h3⟩]

theorem mem_keptMap (ls : List (List Char)) (x : List Char)
    (h : x ∈ keptMap ls) :
    x ≠ [] ∧ x.head? ≠ some '>' ∧ ∃ l, l ∈ ls ∧ x = pyStrip l := by
  unfold keptMap at h
  rw [List.mem_filterMap] at h
  obtain ⟨l, hmem, hl⟩ := h
  by_cases hc : pyStrip l ≠ [] ∧ (pyStrip l).head? ≠ some '>'
  · rw [if_pos hc] at hl
    have hx := Option.some.inj hl
    exact ⟨by rw [← hx]; exact hc.1, by rw [← hx]; exact hc.2, ⟨l, hmem, hx.symm⟩⟩
  · rw [if_neg hc] at hl
    exact absurd hl (by simp)

theorem joinNL_head (k : List Char) (ks : List (List Char)) (hk : k ≠ []) :
    (joinNL (k :: ks)).head? = k.head? := by
  cases ks with
  | nil => rfl
  | cons l2 ls =>
    rw [joinNL_cons]
    cases k with
    | nil => exact absurd rfl hk
    | cons a as => rfl

theorem joinNL_last (ls : List (List Char)) (c : Char)
    (hall : ∀ l ∈ ls, l ≠ []) (h : (joinNL ls).getLast? = some c) :
    ∃ l, l ∈ ls ∧ l.getLast? = some c := by
  induction ls with
  | nil => simp [joinNL] at h
  | cons l0 ls2 ih =>
    cases ls2 with
    | nil => exact ⟨l0, List.mem_cons_self _ _, h⟩
    | cons l2 ls3 =>
      rw [joinNL_cons] at h
      have hjne : joinNL (l2 :: ls3) ≠ [] :=
        joinNL_ne_nil _ (List.cons_ne_nil _ _)
          (fun x hx => hall x (List.mem_cons_of_mem l0 hx))
      rw [List.getLast?_append_of_ne_nil l0 (List.cons_ne_nil _ _)] at h
      rw [show ('\n' :: joinNL (l2 :: ls3)) = ['\n'] ++ joinNL (l2 :: ls3)
          from rfl, List.getLast?_append_of_ne_nil ['\n'] hjne] at h
      obtain ⟨l', hm, hl'⟩ := ih (fun x hx => hall x (List.mem_cons_of_mem l0 hx)) h
      exact ⟨l', List.mem_cons_of_mem l0 hm, hl'⟩

/-- Claim C3: quoted replies and forwarding headers are stripped: the first
component returned by `extract_email_body_universal_mode` contains no line
beginning with `>`, and it equals exactly the kept lines (stripped,
non-empty, not quoted) of the prefix of the input's lines before the first
line matching a quote separator (a line of five or more dashes), a
forwarding header (`Кому:`, `Тема:`, `От:`, `From:`, `To:`, `Subject:`,
`Date:`), a reply date-time line `DD.MM.YYYY, HH:MM`, or an
`On ... wrote:` line — so that trigger line and all following lines are
excluded from the result. -/
theorem c3_universal_mode_strips_quoted (htmlToText : List Char → List Char)
    (email_body : List Char) :
    (∀ l ∈ splitNL (extract_email_body_universal_mode htmlToText email_body).1,
        l.head? ≠ some '>')
    ∧ (extract_email_body_universal_mode htmlToText email_body).1 =
        joinNL (mode_kept (splitNL (mode_text htmlToText email_body))) := by
  have hprops : ∀ x ∈ mode_kept (splitNL (mode_text htmlToText email_body)),
      x ≠ [] ∧ x.head? ≠ some '>' ∧ '\n' ∉ x
      ∧ (∀ c, x.head? = some c → pySpaceChar c = false)
      ∧ (∀ c, x.getLast? = some c → pySpaceChar c = false) := by
    intro x hx
    obtain ⟨hne, hgt, ⟨l, hml, hxl⟩⟩ := mem_keptMap _ x hx
    have hl_nl : '\n' ∉ l :=
      splitNL_no_nl (mode_text htmlToText email_body) l (List.take_subset _ _ hml)
    subst hxl
    exact ⟨hne, hgt, pyStrip_no_nl l hl_nl,
      fun c hc => pyStrip_head_not_space l c hc,
      fun c hc => pyStrip_last_not_space l c hc⟩
  have hmain : (extract_email_body_universal_mode htmlToText email_body).1 =
      joinNL (mode_kept (splitNL (mode_text htmlToText email_body))) := by
    show pyStrip (collapseGo 0 (joinNL (filterLines false
        (splitNL (mode_text htmlToText email_body))))) = _
    rw [filterLines_false_eq]
    rw [collapse_join _ (fun l hl => ⟨(hprops l hl).1, (hprops l hl).2.2.1⟩)]
    cases hk : mode_kept (splitNL (mode_text htmlToText email_body)) with
    | nil => rfl
    | cons k ks =>
      apply pyStrip_id
      · intro c hc
        have hkne : k ≠ [] :=
          (hprops k (by rw [hk]; exact List.mem_cons_self _ _)).1
        rw [joinNL_head k ks hkne] at hc
        exact (hprops k (by rw [hk]; exact List.mem_cons_self _ _)).2.2.2.1 c hc
      · intro c hc
        obtain ⟨l', hm, hl'⟩ := joinNL_last (k :: ks) c
          (fun x hx2 => (hprops x (by rw [hk]; exact hx2)).1) hc
        exact (hprops l' (by rw [hk]; exact hm)).2.2.2.2 c hl'
  refine ⟨?_, hmain⟩
  intro l hl
  rw [hmain] at hl
  cases hk : mode_kept (splitNL (mode_text htmlToText email_body)) with
  | nil =>
    rw [hk] at hl
    replace hl : l ∈ [([] : List Char)] := hl
    simp at hl
    subst hl
    simp
  | cons k ks =>
    rw [hk] at hl
    rw [splitNL_joinNL (k :: ks) (List.cons_ne_nil _ _)
      (fun x hx => (hprops x (by rw [hk]; exact hx)).2.2.1)] at hl
    exact (hprops l (by rw [hk]; exact hl)).2.1

/-- Witness for C3: a body with a quoted line and a forwarding header keeps
only the line before them. -/
theorem c3_universal_mode_strips_quoted_witness :
    ("hi".toList).head? ≠ some '>'
    ∧ (extract_email_body_universal_mode (fun t => t)
        ("hi\n> quoted\nFrom: x\nsecret".toList)).1 = "hi".toList :=
  ⟨(c3_universal_mode_strips_quoted (fun t => t)
      ("hi\n> quoted\nFrom: x\nsecret".toList)).1 ("hi".toList) (by decide),
   by
    have h := (c3_universal_mode_strips_quoted (fun t => t)
      ("hi\n> quoted\nFrom: x\nsecret".toList)).2
    rw [h]
    decide⟩
